import Mathlib

/-!
Verification development for the MAPS core: a shallow embedding of the
keyword normalizer, structure classifier, XML field/keyword extraction,
confidence scoring and keyword search engine, together with theorems
settling the behavioural claims about them.

Python strings are modelled as `String`/`List Char`; Python dicts as
association lists with overwrite-on-insert semantics (`dinsert`); Python
sets as deduplicated lists in insertion order; floats as `ℚ`.
-/

namespace Maps

/-! ### Python-style character and string primitives -/

/-- Whitespace test mirroring Python `str.isspace` on the ASCII range. -/
def pyIsSpace (c : Char) : Bool :=
  c == ' ' || c == '\t' || c == '\n' || c == '\r' || c == '\x0b' || c == '\x0c'

/-- Alphanumeric test mirroring Python `str.isalnum` on the ASCII range. -/
def pyIsAlnum (c : Char) : Bool :=
  c.isAlphanum

/-- `str.lower` on a character list. -/
def lowerL (l : List Char) : List Char := l.map Char.toLower

/-- Left strip: drop leading whitespace (Python `str.lstrip`). -/
def lstripL (l : List Char) : List Char := l.dropWhile pyIsSpace

/-- Right strip: drop trailing whitespace (Python `str.rstrip`). -/
def rstripL (l : List Char) : List Char := (l.reverse.dropWhile pyIsSpace).reverse

/-- `str.strip`: drop whitespace at both ends. -/
def pyStripL (l : List Char) : List Char := rstripL (lstripL l)

/-- `s.lower()` as a `String`. -/
def lowerStr (s : String) : String := ⟨lowerL s.data⟩

/-- `s.strip()` as a `String`. -/
def stripStr (s : String) : String := ⟨pyStripL s.data⟩

/-- `s.lower().strip()`, the first step of keyword normalization. -/
def nls (s : String) : String := ⟨pyStripL (lowerL s.data)⟩

theorem toLower_idem (c : Char) : Char.toLower (Char.toLower c) = Char.toLower c := by
  by_cases h : c.toNat ≥ 65 ∧ c.toNat ≤ 90
  · have hvalid : (c.toNat + 32).isValidChar := by
      unfold Nat.isValidChar
      left
      omega
    have hlow : Char.toLower c = Char.ofNat (c.toNat + 32) := by
      simp [Char.toLower, h]
    have htn : (Char.ofNat (c.toNat + 32)).toNat = c.toNat + 32 := by
      simp [Char.ofNat, hvalid]
      unfold Char.ofNatAux
      simp [Char.toNat]
      rfl
    rw [hlow]
    have : ¬ ((Char.ofNat (c.toNat + 32)).toNat ≥ 65 ∧ (Char.ofNat (c.toNat + 32)).toNat ≤ 90) := by
      rw [htn]; omega
    simp [Char.toLower, this]
  · simp [Char.toLower, h]

theorem dropWhile_dropWhile (p : Char → Bool) (l : List Char) :
    (l.dropWhile p).dropWhile p = l.dropWhile p := by
  induction l with
  | nil => rfl
  | cons a t ih =>
    by_cases h : p a
    · simp [List.dropWhile_cons, h, ih]
    · simp [List.dropWhile_cons, h]

theorem dropWhile_head_false {p : Char → Bool} {l : List Char} {c : Char} {t : List Char}
    (h : l.dropWhile p = c :: t) : p c = false := by
  induction l with
  | nil => simp at h
  | cons a s ih =>
    by_cases ha : p a
    · rw [List.dropWhile_cons] at h
      simp [ha] at h
      exact ih h
    · rw [List.dropWhile_cons] at h
      simp [ha] at h
      rw [← h.1]
      simp [ha]

theorem rstripL_append_eq (l : List Char) : ∃ u, rstripL l ++ u = l := by
  refine ⟨(l.reverse.takeWhile pyIsSpace).reverse, ?_⟩
  rw [rstripL, ← List.reverse_append]
  rw [List.takeWhile_append_dropWhile]
  exact List.reverse_reverse l

theorem rstripL_idem (l : List Char) : rstripL (rstripL l) = rstripL l := by
  unfold rstripL
  rw [List.reverse_reverse, dropWhile_dropWhile]

theorem lstripL_idem (l : List Char) : lstripL (lstripL l) = lstripL l :=
  dropWhile_dropWhile pyIsSpace l

theorem lstripL_of_head_false {c : Char} {t : List Char} (h : pyIsSpace c = false) :
    lstripL (c :: t) = c :: t := by
  simp [lstripL, List.dropWhile_cons, h]

theorem pyStripL_idem (l : List Char) : pyStripL (pyStripL l) = pyStripL l := by
  unfold pyStripL
  have hls : lstripL (rstripL (lstripL l)) = rstripL (lstripL l) := by
    cases hm : rstripL (lstripL l) with
    | nil => simp [lstripL]
    | cons c t =>
      obtain ⟨u, hu⟩ := rstripL_append_eq (lstripL l)
      rw [hm] at hu
      have hc : pyIsSpace c = false := by
        cases hl : lstripL l with
        | nil => rw [hl] at hu; simp at hu
        | cons c' t' =>
          have hc' : pyIsSpace c' = false := dropWhile_head_false hl
          rw [hl] at hu
          have : c = c' := by
            have := congrArg (List.head?) hu
            simpa using this
          rwa [this]
      exact lstripL_of_head_false hc
  rw [hls, rstripL_idem]

theorem mem_rstripL {c : Char} {l : List Char} (h : c ∈ rstripL l) : c ∈ l := by
  unfold rstripL at h
  rw [List.mem_reverse] at h
  have := (List.dropWhile_sublist pyIsSpace (l := l.reverse)).mem h
  rwa [List.mem_reverse] at this

theorem mem_pyStripL {c : Char} {l : List Char} (h : c ∈ pyStripL l) : c ∈ l := by
  unfold pyStripL at h
  have h1 := mem_rstripL h
  exact (List.dropWhile_sublist pyIsSpace (l := l)).mem h1

theorem lowerL_fix {l : List Char} (h : ∀ c ∈ l, Char.toLower c = c) : lowerL l = l := by
  unfold lowerL
  calc l.map Char.toLower = l.map id := List.map_congr_left h
  _ = l := List.map_id l

theorem lowerL_of_lowerL (s : List Char) : lowerL (pyStripL (lowerL s)) = pyStripL (lowerL s) := by
  apply lowerL_fix
  intro c hc
  have hcl : c ∈ lowerL s := mem_pyStripL hc
  obtain ⟨a, _, ha⟩ := List.mem_map.mp hcl
  rw [← ha]
  exact toLower_idem a

theorem nls_idem (s : String) : nls (nls s) = nls s := by
  show (⟨pyStripL (lowerL (pyStripL (lowerL s.data)))⟩ : String) = ⟨pyStripL (lowerL s.data)⟩
  rw [lowerL_of_lowerL, pyStripL_idem]

/-! ### Python dict as association list (insertion order, overwrite on re-insert) -/

/-- Dict lookup. -/
def alookup {α : Type} (m : List (String × α)) (k : String) : Option α :=
  (m.find? (fun p => p.1 == k)).map (·.2)

/-- Dict assignment `m[k] = v`: overwrite in place if the key exists, else append. -/
def dinsert {α : Type} (m : List (String × α)) (k : String) (v : α) : List (String × α) :=
  if m.any (fun p => p.1 == k) then
    m.map (fun p => if p.1 == k then (k, v) else p)
  else m ++ [(k, v)]

theorem alookup_mem_values {α : Type} {m : List (String × α)} {k : String} {v : α}
    (h : alookup m k = some v) : v ∈ m.map (·.2) := by
  unfold alookup at h
  cases hf : m.find? (fun p => p.1 == k) with
  | none => rw [hf] at h; simp at h
  | some p =>
    rw [hf] at h
    simp at h
    have := List.mem_of_find?_eq_some hf
    rw [← h]
    exact List.mem_map.mpr ⟨p, this, rfl⟩

theorem alookup_isSome_dinsert {α : Type} (m : List (String × α)) (k k' : String) (v : α)
    (h : (alookup m k).isSome) : (alookup (dinsert m k' v) k).isSome := by
  unfold alookup at *
  unfold dinsert
  by_cases hmem : (m.any fun p => p.1 == k') = true
  · rw [if_pos hmem]
    cases hf : m.find? (fun p => p.1 == k) with
    | none => rw [hf] at h; simp at h
    | some p =>
      have hp := List.find?_some hf
      have hpm := List.mem_of_find?_eq_some hf
      by_cases hkk : p.1 = k'
      · have : ((k', v).1 == k) = true := by
          simp at hp ⊢
          rw [← hkk, hp]
        have hex : ∃ q ∈ m.map (fun p => if p.1 == k' then (k', v) else p), (q.1 == k) = true := by
          refine ⟨(k', v), List.mem_map.mpr ⟨p, hpm, ?_⟩, this⟩
          simp [hkk]
        obtain ⟨q, hq1, hq2⟩ := hex
        cases hf2 : (m.map (fun p => if p.1 == k' then (k', v) else p)).find? (fun p => p.1 == k) with
        | none =>
          have := List.find?_eq_none.mp hf2 q hq1
          rw [hq2] at this
          simp at this
        | some r => simp
      · have : ∃ q ∈ m.map (fun p => if p.1 == k' then (k', v) else p), (q.1 == k) = true := by
          refine ⟨p, List.mem_map.mpr ⟨p, hpm, ?_⟩, hp⟩
          simp [hkk]
        obtain ⟨q, hq1, hq2⟩ := this
        cases hf2 : (m.map (fun p => if p.1 == k' then (k', v) else p)).find? (fun p => p.1 == k) with
        | none =>
          have := List.find?_eq_none.mp hf2 q hq1
          rw [hq2] at this
          simp at this
        | some r => simp
  · rw [if_neg hmem]
    cases hf : m.find? (fun p => p.1 == k) with
    | none => rw [hf] at h; simp at h
    | some p =>
      rw [List.find?_append, hf]
      simp

theorem alookup_dinsert_self {α : Type} (m : List (String × α)) (k : String) (v : α) :
    (alookup (dinsert m k v) k).isSome := by
  unfold alookup dinsert
  by_cases hmem : (m.any fun p => p.1 == k) = true
  · rw [if_pos hmem]
    obtain ⟨p, hpm, hp⟩ := List.any_eq_true.mp hmem
    have hq1 : (k, v) ∈ m.map (fun p => if p.1 == k then (k, v) else p) :=
      List.mem_map.mpr ⟨p, hpm, by simp [hp]⟩
    cases hf2 : (m.map (fun p => if p.1 == k then (k, v) else p)).find? (fun p => p.1 == k) with
    | none =>
      have := List.find?_eq_none.mp hf2 (k, v) hq1
      simp at this
    | some r => simp
  · rw [if_neg hmem]
    rw [List.find?_append]
    cases hf : m.find? (fun p => p.1 == k) with
    | none => simp
    | some p => simp

/-! ### Python set, determinized as a deduplicated list in insertion order -/

/-- `s.add(a)` on a set represented as a duplicate-free list. -/
def insertIfAbsent {α : Type} [DecidableEq α] (l : List α) (a : α) : List α :=
  if a ∈ l then l else l ++ [a]

/-- `set(l)`, keeping the first occurrence of each element. -/
def dedupL {α : Type} [DecidableEq α] (l : List α) : List α :=
  l.foldl insertIfAbsent []

/-! ### KeywordNormalizer (keyword_normalizer.py) -/

/-- The four sections of the medical-terms dictionary consumed by
`KeywordNormalizer`: synonym groups (canonical term to surface forms),
abbreviation map, multi-word phrases and stopwords. -/
structure MedicalTerms where
  synonyms : List (String × List String)
  abbreviations : List (String × String)
  multi_word_terms : List String
  stopwords : List String

/-- `_build_lookup_maps`: every surface form (and each canonical term itself),
lowercased, maps to the lowercased canonical form; later groups overwrite. -/
def buildSynonymMap (groups : List (String × List String)) : List (String × String) :=
  groups.foldl
    (fun m g =>
      g.2.foldl (fun m' s => dinsert m' (lowerStr s) (lowerStr g.1))
        (dinsert m (lowerStr g.1) (lowerStr g.1)))
    []

/-- `self.synonym_map` built at normalizer construction. -/
def synonymMap (mt : MedicalTerms) : List (String × String) :=
  buildSynonymMap mt.synonyms

/-- `self.abbreviation_map`: lowercased abbreviation to lowercased expansion. -/
def abbreviationMap (mt : MedicalTerms) : List (String × String) :=
  mt.abbreviations.foldl (fun m p => dinsert m (lowerStr p.1) (lowerStr p.2)) []

/-- `self.multi_word_set`: lowercased multi-word phrases as a set. -/
def multiWordSet (mt : MedicalTerms) : List String :=
  dedupL (mt.multi_word_terms.map lowerStr)

/-- `KeywordNormalizer.normalize`: lowercase and trim, expand a known
abbreviation, then map through the synonym table; identity fallback. -/
def normalize (mt : MedicalTerms) (keyword : String) (expandAbbreviations : Bool := true) :
    String :=
  let keywordLower := nls keyword
  let keywordLower :=
    if expandAbbreviations then
      match alookup (abbreviationMap mt) keywordLower with
      | some full => full
      | none => keywordLower
    else keywordLower
  match alookup (synonymMap mt) keywordLower with
  | some canonical => canonical
  | none => keywordLower

/-- `KeywordNormalizer.get_all_forms`: the canonical form plus all surface
forms of the first synonym group whose canonical term matches. -/
def get_all_forms (mt : MedicalTerms) (keyword : String) : List String :=
  let canonical := normalize mt keyword
  let synonyms :=
    canonical ::
      (match mt.synonyms.find? (fun g => lowerStr g.1 == canonical) with
      | some g => g.2.map lowerStr
      | none => [])
  dedupL synonyms

/-- Every synonym group's lowercased canonical term is a key of the built
synonym map. -/
theorem synonymMap_key_of_group (groups : List (String × List String)) :
    ∀ g ∈ groups, (alookup (buildSynonymMap groups) (lowerStr g.1)).isSome := by
  have mono : ∀ (l : List String) (m : List (String × String)) (k : String) (c : String),
      (alookup m k).isSome →
      (alookup (l.foldl (fun m' s => dinsert m' (lowerStr s) (lowerStr c)) m) k).isSome := by
    intro l
    induction l with
    | nil => intro m k c h; exact h
    | cons s t ih =>
      intro m k c h
      exact ih _ k c (alookup_isSome_dinsert m k (lowerStr s) (lowerStr c) h)
  have monoGroups : ∀ (gs : List (String × List String)) (m : List (String × String)) (k : String),
      (alookup m k).isSome →
      (alookup (gs.foldl (fun m g =>
        g.2.foldl (fun m' s => dinsert m' (lowerStr s) (lowerStr g.1))
          (dinsert m (lowerStr g.1) (lowerStr g.1))) m) k).isSome := by
    intro gs
    induction gs with
    | nil => intro m k h; exact h
    | cons g t ih =>
      intro m k h
      exact ih _ k (mono g.2 _ k g.1 (alookup_isSome_dinsert m k (lowerStr g.1) (lowerStr g.1) h))
  suffices H : ∀ (gs : List (String × List String)) (m : List (String × String)),
      ∀ g ∈ gs, (alookup (gs.foldl (fun m g =>
        g.2.foldl (fun m' s => dinsert m' (lowerStr s) (lowerStr g.1))
          (dinsert m (lowerStr g.1) (lowerStr g.1))) m) (lowerStr g.1)).isSome by
    intro g hg
    exact H groups [] g hg
  intro gs
  induction gs with
  | nil => intro m g hg; simp at hg
  | cons g0 t ih =>
    intro m g hg
    rcases List.mem_cons.mp hg with h0 | hmem
    · subst h0
      simp only [List.foldl_cons]
      apply monoGroups
      apply mono
      exact alookup_dinsert_self m (lowerStr g.1) (lowerStr g.1)
    · exact ih _ g hmem

/-- Dictionary on which `normalize` fails to be idempotent: the expansion of
abbreviation `a` is itself the abbreviation `b`. -/
def mtC6 : MedicalTerms :=
  { synonyms := []
    abbreviations := [("a", "b"), ("b", "c")]
    multi_word_terms := []
    stopwords := [] }

/-- C6 counterexample: with abbreviations `a -> b` and `b -> c`,
`normalize (normalize "a") = "c"` but `normalize "a" = "b"`, so normalization
is not idempotent for every loaded dictionary. -/
theorem C6_counterexample :
    normalize mtC6 (normalize mtC6 "a") ≠ normalize mtC6 "a" := by
  decide

/-- C6 (amended): normalization is idempotent for every dictionary whose
built lookup maps send every stored value to a fixed point of `normalize`
(as the shipped dictionary does); an arbitrary dictionary can break this via
chained abbreviations. -/
theorem C6_normalize_idem (mt : MedicalTerms) (t : String)
    (ha : ∀ k v, alookup (abbreviationMap mt) k = some v → normalize mt v = v)
    (hs : ∀ k v, alookup (synonymMap mt) k = some v → normalize mt v = v) :
    normalize mt (normalize mt t) = normalize mt t := by
  cases hab : alookup (abbreviationMap mt) (nls t) with
  | some f =>
    cases hsy : alookup (synonymMap mt) f with
    | some c =>
      have hval : normalize mt t = c := by simp [normalize, hab, hsy]
      rw [hval]
      exact hs f c hsy
    | none =>
      have hval : normalize mt t = f := by simp [normalize, hab, hsy]
      rw [hval]
      exact ha (nls t) f hab
  | none =>
    cases hsy : alookup (synonymMap mt) (nls t) with
    | some c =>
      have hval : normalize mt t = c := by simp [normalize, hab, hsy]
      rw [hval]
      exact hs (nls t) c hsy
    | none =>
      have hval : normalize mt t = nls t := by simp [normalize, hab, hsy]
      rw [hval]
      have hfix : nls (nls t) = nls t := nls_idem t
      simp [normalize, hfix, hab, hsy]

/-- Well-formed dictionary used to witness the amended C6 theorem. -/
def mtC6w : MedicalTerms :=
  { synonyms := [("pulmonary", ["lung"])]
    abbreviations := [("ct", "computed tomography")]
    multi_word_terms := []
    stopwords := [] }

/-! ### Stable sorting (Python `sorted` / `list.sort`) -/

/-- Insert `a` after every element that may stay before it (stable). -/
def pyInsertBy {α : Type} (le : α → α → Bool) (a : α) : List α → List α
  | [] => [a]
  | b :: t => if le b a then b :: pyInsertBy le a t else a :: b :: t

/-- Stable insertion sort, the determinization of Python's stable `sorted`. -/
def pySortBy {α : Type} (le : α → α → Bool) (l : List α) : List α :=
  l.foldl (fun acc a => pyInsertBy le a acc) []

theorem mem_pyInsertBy {α : Type} (le : α → α → Bool) (a x : α) (l : List α) :
    x ∈ pyInsertBy le a l ↔ x = a ∨ x ∈ l := by
  induction l with
  | nil => simp [pyInsertBy]
  | cons b t ih =>
    by_cases h : le b a <;> simp [pyInsertBy, h, ih] <;> tauto

theorem mem_pySortBy {α : Type} (le : α → α → Bool) (x : α) (l : List α) :
    x ∈ pySortBy le l ↔ x ∈ l := by
  suffices H : ∀ (l acc : List α), x ∈ l.foldl (fun acc a => pyInsertBy le a acc) acc ↔
      x ∈ acc ∨ x ∈ l by
    rw [pySortBy, H]
    simp
  intro l
  induction l with
  | nil => simp
  | cons a t ih =>
    intro acc
    rw [List.foldl_cons, ih, mem_pyInsertBy]
    simp [List.mem_cons]
    tauto

theorem pairwise_pyInsertBy {α : Type} (le : α → α → Bool)
    (htot : ∀ a b, (le a b || le b a) = true)
    (htrans : ∀ a b c, le a b = true → le b c = true → le a c = true)
    (a : α) (l : List α)
    (h : l.Pairwise (fun x y => le x y = true)) :
    (pyInsertBy le a l).Pairwise (fun x y => le x y = true) := by
  induction l with
  | nil => simp [pyInsertBy]
  | cons b t ih =>
    rcases List.pairwise_cons.mp h with ⟨hb, ht⟩
    by_cases hba : le b a = true
    · simp only [pyInsertBy, hba, if_true]
      refine List.pairwise_cons.mpr ⟨?_, ih ht⟩
      intro y hy
      rcases (mem_pyInsertBy le a y t).mp hy with rfl | hyt
      · exact hba
      · exact hb y hyt
    · simp only [pyInsertBy, hba, if_false]
      refine List.pairwise_cons.mpr ⟨?_, h⟩
      have hab : le a b = true := by
        rcases Bool.or_eq_true _ _ |>.mp (htot a b) with h1 | h2
        · exact h1
        · exact absurd h2 hba
      intro y hy
      rcases List.mem_cons.mp hy with rfl | hyt
      · exact hab
      · exact htrans a b y hab (hb y hyt)

theorem pairwise_pySortBy {α : Type} (le : α → α → Bool)
    (htot : ∀ a b, (le a b || le b a) = true)
    (htrans : ∀ a b c, le a b = true → le b c = true → le a c = true)
    (l : List α) :
    (pySortBy le l).Pairwise (fun x y => le x y = true) := by
  suffices H : ∀ (l acc : List α), acc.Pairwise (fun x y => le x y = true) →
      (l.foldl (fun acc a => pyInsertBy le a acc) acc).Pairwise (fun x y => le x y = true) by
    exact H l [] (by simp)
  intro l
  induction l with
  | nil => intro acc hacc; exact hacc
  | cons a t ih =>
    intro acc hacc
    exact ih _ (pairwise_pyInsertBy le htot htrans a acc hacc)

/-- Witness for C6: on a concrete well-formed dictionary, normalizing
`"lung"` twice equals normalizing it once. -/
theorem C6_witness : normalize mtC6w (normalize mtC6w "lung") = normalize mtC6w "lung" := by
  apply C6_normalize_idem
  · intro k v h
    have hv := alookup_mem_values h
    have hmap : (abbreviationMap mtC6w).map (·.2) = ["computed tomography"] := by decide
    rw [hmap] at hv
    simp at hv
    subst hv
    decide
  · intro k v h
    have hv := alookup_mem_values h
    have hmap : (synonymMap mtC6w).map (·.2) = ["pulmonary", "pulmonary"] := by decide
    rw [hmap] at hv
    simp at hv
    subst hv
    decide

/-! ### detect_multi_word_terms -/

/-- Does `ndl` occur at the very beginning of `hay`? -/
def startsWith : List Char → List Char → Bool
  | [], _ => true
  | _ :: _, [] => false
  | a :: as, b :: bs => a == b && startsWith as bs

/-- Python `hay.find(ndl, start)`: smallest index at least `start` where
`ndl` occurs in `hay`, as an `Option`. -/
def findFrom (hay ndl : List Char) (start : Nat) : Option Nat :=
  (List.range (hay.length + 1)).find? (fun i => decide (start ≤ i) && startsWith ndl (hay.drop i))

/-- The `while True` scan of one candidate term: collect every occurrence
whose neighbouring characters (when they exist) are not alphanumeric,
restarting one character after each found position.  `fuel` bounds the
number of iterations; `hay.length + 2` always suffices. -/
def scanTerm (hay ndl : List Char) (start fuel : Nat) : List (Nat × Nat) :=
  match fuel with
  | 0 => []
  | fuel + 1 =>
    match findFrom hay ndl start with
    | none => []
    | some pos =>
      let beforeOk := pos == 0 || !pyIsAlnum (hay.getD (pos - 1) ' ')
      let afterOk :=
        pos + ndl.length == hay.length || !pyIsAlnum (hay.getD (pos + ndl.length) ' ')
      if beforeOk && afterOk then
        (pos, pos + ndl.length) :: scanTerm hay ndl (pos + 1) fuel
      else
        scanTerm hay ndl (pos + 1) fuel

/-- `KeywordNormalizer.detect_multi_word_terms`: candidates sorted by
descending length, all accepted `(term, start, end)` triples collected and
sorted by ascending start offset (stable). -/
def detect_multi_word_terms (mt : MedicalTerms) (text : String) : List (String × Nat × Nat) :=
  let textLower := lowerL text.data
  let sortedTerms := pySortBy (fun a b => decide (b.data.length ≤ a.data.length)) (multiWordSet mt)
  let detected := sortedTerms.flatMap (fun term =>
    (scanTerm textLower term.data 0 (textLower.length + 2)).map (fun pr => (term, pr.1, pr.2)))
  pySortBy (fun a b => decide (a.2.1 ≤ b.2.1)) detected

theorem mem_scanTerm {hay ndl : List Char} {s e : Nat} :
    ∀ {start fuel : Nat}, (s, e) ∈ scanTerm hay ndl start fuel →
      e = s + ndl.length ∧ startsWith ndl (hay.drop s) = true ∧
      (s = 0 ∨ pyIsAlnum (hay.getD (s - 1) ' ') = false) ∧
      (e = hay.length ∨ pyIsAlnum (hay.getD e ' ') = false) := by
  intro start fuel
  induction fuel generalizing start with
  | zero => intro h; simp [scanTerm] at h
  | succ n ih =>
    intro h
    rw [scanTerm] at h
    cases hf : findFrom hay ndl start with
    | none => rw [hf] at h; simp at h
    | some pos =>
      rw [hf] at h
      have hp := List.find?_some hf
      rw [Bool.and_eq_true] at hp
      have hocc : startsWith ndl (hay.drop pos) = true := hp.2
      by_cases hok : ((pos == 0 || !pyIsAlnum (hay.getD (pos - 1) ' ')) &&
          (pos + ndl.length == hay.length || !pyIsAlnum (hay.getD (pos + ndl.length) ' '))) = true
      · simp only [hok, if_true] at h
        rcases List.mem_cons.mp h with heq | htail
        · have hse : s = pos ∧ e = pos + ndl.length := by
            constructor
            · exact congrArg Prod.fst heq
            · exact congrArg Prod.snd heq
          obtain ⟨rfl, rfl⟩ := hse
          rw [Bool.and_eq_true, Bool.or_eq_true, Bool.or_eq_true] at hok
          refine ⟨rfl, hocc, ?_, ?_⟩
          · rcases hok.1 with h1 | h1
            · left; exact Nat.eq_of_beq_eq_true (by simpa using h1)
            · right; simpa using h1
          · rcases hok.2 with h1 | h1
            · left; exact Nat.eq_of_beq_eq_true (by simpa using h1)
            · right; simpa using h1
        · exact ih htail
      · simp only [hok, if_false] at h
        exact ih h

theorem mem_flatMap_scan {mt : MedicalTerms} {text : String} {t : String} {s e : Nat}
    (h : (t, s, e) ∈ detect_multi_word_terms mt text) :
    t ∈ multiWordSet mt ∧ (s, e) ∈
      scanTerm (lowerL text.data) t.data 0 ((lowerL text.data).length + 2) := by
  unfold detect_multi_word_terms at h
  rw [mem_pySortBy] at h
  rcases List.mem_flatMap.mp h with ⟨term, hterm, hmem⟩
  rcases List.mem_map.mp hmem with ⟨pr, hpr, heq⟩
  have ht : term = t := congrArg Prod.fst heq
  have hs : pr.1 = s := congrArg (fun x => x.2.1) heq
  have he : pr.2 = e := congrArg (fun x => x.2.2) heq
  subst ht
  rw [mem_pySortBy] at hterm
  refine ⟨hterm, ?_⟩
  rw [← hs, ← he]
  exact hpr

/-- Concrete dictionary for the C5 example: one multi-word phrase. -/
def mtC5 : MedicalTerms :=
  { synonyms := []
    abbreviations := []
    multi_word_terms := ["ground glass opacity"]
    stopwords := [] }

/-- C5: every triple reported by `detect_multi_word_terms` is an occurrence
of a dictionary phrase whose neighbouring characters (when present) are not
alphanumeric, the result is sorted by ascending start offset, and on the two
concrete example texts the detector returns exactly the hit `(12, 32)` and
no hit respectively. -/
theorem C5_detect_multi_word_terms (mt : MedicalTerms) (text : String) :
    (∀ t s e, (t, s, e) ∈ detect_multi_word_terms mt text →
      t ∈ multiWordSet mt ∧
      e = s + t.data.length ∧
      startsWith t.data ((lowerL text.data).drop s) = true ∧
      (s = 0 ∨ pyIsAlnum ((lowerL text.data).getD (s - 1) ' ') = false) ∧
      (e = (lowerL text.data).length ∨ pyIsAlnum ((lowerL text.data).getD e ' ') = false)) ∧
    (detect_multi_word_terms mt text).Pairwise (fun a b => a.2.1 ≤ b.2.1) ∧
    detect_multi_word_terms mtC5 "patient has ground glass opacity" =
      [("ground glass opacity", 12, 32)] ∧
    detect_multi_word_terms mtC5 "subground glass opacity" = [] := by
  refine ⟨?_, ?_, by decide, by decide⟩
  · intro t s e h
    obtain ⟨hset, hscan⟩ := mem_flatMap_scan h
    obtain ⟨he, hocc, hbefore, hafter⟩ := mem_scanTerm hscan
    exact ⟨hset, he, hocc, hbefore, hafter⟩
  · have := pairwise_pySortBy (fun a b : String × Nat × Nat => decide (a.2.1 ≤ b.2.1))
      (by intro a b; simp [Bool.or_eq_true]; omega)
      (by intro a b c h1 h2; simp at h1 h2 ⊢; omega)
      ((pySortBy (fun a b : String => decide (b.data.length ≤ a.data.length))
          (multiWordSet mt)).flatMap (fun term =>
        (scanTerm (lowerL text.data) term.data 0 ((lowerL text.data).length + 2)).map
          (fun pr => (term, pr.1, pr.2))))
    unfold detect_multi_word_terms
    refine List.Pairwise.imp ?_ this
    intro a b hab
    simpa using hab

/-- Witness for C5: the universal part applied to the concrete hit of the
example text, discharging the membership hypothesis. -/
theorem C5_witness :
    "ground glass opacity" ∈ multiWordSet mtC5 ∧
    (32 : Nat) = 12 + ("ground glass opacity" : String).data.length ∧
    startsWith ("ground glass opacity" : String).data
      ((lowerL ("patient has ground glass opacity" : String).data).drop 12) = true ∧
    ((12 : Nat) = 0 ∨
      pyIsAlnum ((lowerL ("patient has ground glass opacity" : String).data).getD (12 - 1) ' ')
        = false) ∧
    ((32 : Nat) = (lowerL ("patient has ground glass opacity" : String).data).length ∨
      pyIsAlnum ((lowerL ("patient has ground glass opacity" : String).data).getD 32 ' ')
        = false) :=
  (C5_detect_multi_word_terms mtC5 "patient has ground glass opacity").1
    "ground glass opacity" 12 32 (by decide)

/-! ### XML document model and structure classification (parser.py) -/

/-- A parsed XML element: qualified tag (ElementTree style, namespace
spelled inside braces in front of the local name), optional text, children. -/
inductive Element where
  | mk : String → Option String → List Element → Element

/-- Qualified tag of an element. -/
def Element.tag : Element → String
  | .mk t _ _ => t

/-- Text content of an element (`None` when absent). -/
def Element.text : Element → Option String
  | .mk _ tx _ => tx

/-- Direct children of an element. -/
def Element.children : Element → List Element
  | .mk _ _ cs => cs

/-- Namespace URI captured by `re.match(r..., root.tag)` with a greedy
group: the characters between a leading open brace and the last close
brace; empty string when the pattern does not match. -/
def nsOf (tag : String) : String :=
  match tag.data with
  | '{' :: rest =>
    if rest.contains '}' then
      ⟨((rest.reverse.dropWhile (fun c => c != '}')).drop 1).reverse⟩
    else ""
  | _ => ""

/-- The `tag(name)` helper: re-attach the namespace when one is present. -/
def qualifyTag (ns : String) (name : String) : String :=
  if ns ≠ "" then "\x7b" ++ ns ++ "\x7d" ++ name else name

/-- `root.tag.split(...)[-1]`: the local name after the last close brace. -/
def localName (tag : String) : String :=
  ⟨(tag.data.reverse.takeWhile (fun c => c != '}')).reverse⟩

/-- ElementTree `find` with a plain tag: first matching direct child. -/
def findChild (e : Element) (t : String) : Option Element :=
  e.children.find? (fun c => c.tag == t)

/-- ElementTree `findall` with a plain tag: all matching direct children. -/
def findAll (e : Element) (t : String) : List Element :=
  e.children.filter (fun c => c.tag == t)

/-- `detect_parse_case`: classify the structural shape of a document from
its root tag and its `readingSession` / `ResponseHeader` children. -/
def detect_parse_case (root : Element) : String :=
  let nsUri := nsOf root.tag
  let tg := fun n => qualifyTag nsUri n
  let rootTag := localName root.tag
  let isLidc := rootTag == "LidcReadMessage"
  let sessionCount := (findAll root (tg "readingSession")).length
  if isLidc then
    if sessionCount == 1 then "LIDC_Single_Session"
    else if sessionCount == 2 then "LIDC_Multi_Session_2"
    else if sessionCount == 3 then "LIDC_Multi_Session_3"
    else if sessionCount == 4 then "LIDC_Multi_Session_4"
    else "LIDC_Multi_Session_" ++ toString sessionCount
  else
    match findChild root (tg "ResponseHeader") with
    | none => "Unknown"
    | some header =>
      let hasModality := (findChild header (tg "Modality")).isSome
      let hasDate := (findChild header (tg "DateService")).isSome
      if hasModality && hasDate then "Complete_Attributes"
      else if hasDate then "Core_Attributes_Only"
      else "With_Reason_Partial"

/-- Number of elements with a given tag anywhere strictly below a list of
elements.  This is the claim-side reading of C3 ("readingSession elements
anywhere under the root"), used to compare against the source's
direct-children count. -/
def countDescList (t : String) : List Element → Nat
  | [] => 0
  | .mk tg _ cs :: rest =>
    (if tg == t then 1 else 0) + countDescList t cs + countDescList t rest

/-- Modelled from the claim's words for comparison: count of
namespace-qualified `readingSession` elements anywhere under the root. -/
def specCountReadingSessionsAnywhere (root : Element) : Nat :=
  countDescList (qualifyTag (nsOf root.tag) "readingSession") root.children

/-- LIDC document whose only `readingSession` is nested one level deeper
than the root's direct children. -/
def exC3 : Element :=
  .mk "LidcReadMessage" none
    [.mk "wrapper" none [.mk "readingSession" none []]]

/-- C3 counterexample: a `LidcReadMessage` document with exactly one
`readingSession` anywhere under the root but none as a direct child is
classified `LIDC_Multi_Session_0`, not `LIDC_Single_Session` as the claim's
"anywhere under the root" reading would require. -/
theorem C3_counterexample :
    specCountReadingSessionsAnywhere exC3 = 1 ∧
    (findAll exC3 (qualifyTag (nsOf exC3.tag) "readingSession")).length = 0 ∧
    detect_parse_case exC3 = "LIDC_Multi_Session_0" ∧
    detect_parse_case exC3 ≠ "LIDC_Single_Session" := by
  refine ⟨?_, by decide, by decide, by decide⟩
  simp [specCountReadingSessionsAnywhere, countDescList, exC3, qualifyTag, nsOf, Element.tag,
    Element.children]

/-- C3 (amended): for every document whose root local name is
`LidcReadMessage`, classification counts the namespace-qualified
`readingSession` elements among the root's direct children and returns
`LIDC_Single_Session` for count 1 and the dynamic tag
`LIDC_Multi_Session_<count>` for every other count (the fixed names for
counts 2, 3, 4 coincide with the dynamic spelling). -/
theorem C3_classify (root : Element) (h : localName root.tag = "LidcReadMessage") :
    detect_parse_case root =
      (if (findAll root (qualifyTag (nsOf root.tag) "readingSession")).length = 1
       then "LIDC_Single_Session"
       else "LIDC_Multi_Session_" ++
         toString (findAll root (qualifyTag (nsOf root.tag) "readingSession")).length) := by
  unfold detect_parse_case
  rw [h]
  simp only [beq_self_eq_true, if_true]
  set n := (findAll root (qualifyTag (nsOf root.tag) "readingSession")).length with hn
  by_cases h1 : n = 1
  · simp [h1]
  · by_cases h2 : n = 2
    · simp [h1, h2]
      decide
    · by_cases h3 : n = 3
      · simp [h1, h2, h3]
        decide
      · by_cases h4 : n = 4
        · simp [h1, h2, h3, h4]
          decide
        · simp [h1, h2, h3, h4]

/-- Document with two direct `readingSession` children. -/
def exC3w : Element :=
  .mk "LidcReadMessage" none
    [.mk "readingSession" none [], .mk "readingSession" none []]

/-- Witness for C3: the amended classification applied to a concrete
two-session document. -/
theorem C3_witness :
    detect_parse_case exC3w =
      (if (findAll exC3w (qualifyTag (nsOf exC3w.tag) "readingSession")).length = 1
       then "LIDC_Single_Session"
       else "LIDC_Multi_Session_" ++
         toString (findAll exC3w (qualifyTag (nsOf exC3w.tag) "readingSession")).length) :=
  C3_classify exC3w (by decide)

/-! ### Expected attributes per parse case (parser.py) -/

/-- Expected field names per category for one parse case. -/
structure ExpectedAttrs where
  header : List String
  characteristics : List String
  roi : List String
  nodule : List String
deriving DecidableEq

/-- The attribute set shared by the LIDC session cases present in the
lookup table (the source repeats this literal for each of the four keys). -/
def lidcSessionAttrs : ExpectedAttrs :=
  { header := ["StudyInstanceUID", "SeriesInstanceUID", "DateService", "TimeService"]
    characteristics := ["subtlety"]
    roi := ["imageSOP_UID", "xCoord", "yCoord"]
    nodule := ["noduleID"] }

/-- The fallback attribute set for parse cases absent from the table. -/
def defaultExpectedAttrs : ExpectedAttrs :=
  { header := ["StudyInstanceUID", "SeriesInstanceUID"]
    characteristics := []
    roi := ["imageSOP_UID"]
    nodule := ["noduleID"] }

/-- `get_expected_attributes_for_case`: static lookup with a default. -/
def get_expected_attributes_for_case (parseCase : String) : ExpectedAttrs :=
  if parseCase == "Complete_Attributes" then
    { header := ["StudyInstanceUID", "SeriesInstanceUID", "Modality", "DateService", "TimeService"]
      characteristics := ["subtlety", "internalStructure", "calcification", "sphericity",
        "margin", "lobulation", "spiculation", "texture", "malignancy"]
      roi := ["imageSOP_UID", "xCoord", "yCoord"]
      nodule := ["noduleID"] }
  else if parseCase == "Core_Attributes_Only" then
    { header := ["StudyInstanceUID", "SeriesInstanceUID", "DateService"]
      characteristics := ["subtlety", "malignancy"]
      roi := ["imageSOP_UID", "xCoord", "yCoord"]
      nodule := ["noduleID"] }
  else if parseCase == "With_Reason_Partial" then
    { header := ["StudyInstanceUID", "SeriesInstanceUID"]
      characteristics := ["subtlety"]
      roi := ["imageSOP_UID"]
      nodule := ["noduleID"] }
  else if parseCase == "LIDC_Single_Session" then lidcSessionAttrs
  else if parseCase == "LIDC_Multi_Session_2" then lidcSessionAttrs
  else if parseCase == "LIDC_Multi_Session_3" then lidcSessionAttrs
  else if parseCase == "LIDC_Multi_Session_4" then lidcSessionAttrs
  else defaultExpectedAttrs

/-- C4 counterexample: the dynamically numbered case `LIDC_Multi_Session_5`
does not share the fixed LIDC session attribute set; it falls back to the
minimal default. -/
theorem C4_counterexample :
    get_expected_attributes_for_case "LIDC_Multi_Session_5" ≠
      get_expected_attributes_for_case "LIDC_Multi_Session_2" ∧
    get_expected_attributes_for_case "LIDC_Multi_Session_5" = defaultExpectedAttrs := by
  constructor
  · decide
  · decide

/-- C4 (amended): the lookup is a total pure function; the three
multi-session keys 2, 3, 4 (and `LIDC_Single_Session`) share one fixed
attribute set, while every identifier outside the seven table keys —
including dynamically numbered LIDC cases such as `LIDC_Multi_Session_0` or
`LIDC_Multi_Session_5` — yields the minimal default of 2 header fields,
empty characteristics, 1 roi field and 1 nodule field, with no error. -/
theorem C4_expected_attributes (c : String)
    (h : c ∉ ["Complete_Attributes", "Core_Attributes_Only", "With_Reason_Partial",
      "LIDC_Single_Session", "LIDC_Multi_Session_2", "LIDC_Multi_Session_3",
      "LIDC_Multi_Session_4"]) :
    get_expected_attributes_for_case c = defaultExpectedAttrs ∧
    (get_expected_attributes_for_case c).header.length = 2 ∧
    (get_expected_attributes_for_case c).characteristics = [] ∧
    (get_expected_attributes_for_case c).roi.length = 1 ∧
    (get_expected_attributes_for_case c).nodule.length = 1 ∧
    get_expected_attributes_for_case "LIDC_Multi_Session_2" = lidcSessionAttrs ∧
    get_expected_attributes_for_case "LIDC_Multi_Session_3" = lidcSessionAttrs ∧
    get_expected_attributes_for_case "LIDC_Multi_Session_4" = lidcSessionAttrs := by
  simp only [List.mem_cons, List.mem_singleton, not_or] at h
  obtain ⟨h1, h2, h3, h4, h5, h6, h7, -⟩ := h
  have hdef : get_expected_attributes_for_case c = defaultExpectedAttrs := by
    unfold get_expected_attributes_for_case
    rw [if_neg (by simpa using h1), if_neg (by simpa using h2), if_neg (by simpa using h3),
      if_neg (by simpa using h4), if_neg (by simpa using h5), if_neg (by simpa using h6),
      if_neg (by simpa using h7)]
  refine ⟨hdef, ?_, ?_, ?_, ?_, by decide, by decide, by decide⟩ <;> rw [hdef] <;> decide

/-- Witness for C4: the amended lookup behaviour at the concrete
unrecognized identifier `LIDC_Multi_Session_7`. -/
theorem C4_witness :
    get_expected_attributes_for_case "LIDC_Multi_Session_7" = defaultExpectedAttrs ∧
    (get_expected_attributes_for_case "LIDC_Multi_Session_7").header.length = 2 ∧
    (get_expected_attributes_for_case "LIDC_Multi_Session_7").characteristics = [] ∧
    (get_expected_attributes_for_case "LIDC_Multi_Session_7").roi.length = 1 ∧
    (get_expected_attributes_for_case "LIDC_Multi_Session_7").nodule.length = 1 ∧
    get_expected_attributes_for_case "LIDC_Multi_Session_2" = lidcSessionAttrs ∧
    get_expected_attributes_for_case "LIDC_Multi_Session_3" = lidcSessionAttrs ∧
    get_expected_attributes_for_case "LIDC_Multi_Session_4" = lidcSessionAttrs :=
  C4_expected_attributes "LIDC_Multi_Session_7" (by decide)

/-! ### Field extraction into records (parser.py) -/

/-- A cell value of the parsed data frame: a string field, the integer
`roi_count`, a characteristics dict, or a list of ROI coordinate dicts. -/
inductive Val where
  | s : String → Val
  | n : Nat → Val
  | d : List (String × String) → Val
  | lst : List (List (String × String)) → Val
deriving DecidableEq

/-- `str(value)` for the cell values that occur in the claims. -/
def valStr : Val → String
  | .s v => v
  | .n k => toString k
  | .d _ => ""
  | .lst _ => ""

/-- One data-frame row: field name to value, in insertion order. -/
abbrev Record := List (String × Val)

/-- The nine characteristic field names probed by `extract_characteristics`,
in source order. -/
def characteristicNames : List String :=
  ["subtlety", "internalStructure", "calcification", "sphericity", "margin",
   "lobulation", "spiculation", "texture", "malignancy"]

/-- `extract_characteristics`: present, non-empty characteristic leaves of a
nodule element (absent ones omitted, no sentinel). -/
def extract_characteristics (nod : Element) (tg : String → String) : List (String × String) :=
  match findChild nod (tg "characteristics") with
  | none => []
  | some ch =>
    characteristicNames.foldl (fun acc name =>
      match findChild ch (tg name) with
      | some e =>
        match e.text with
        | some t => if t ≠ "" then acc ++ [(name, t)] else acc
        | none => acc
      | none => acc) []

/-- `extract_roi_data`: one dict per `roi` child with its present,
non-empty coordinate fields. -/
def extract_roi_data (nod : Element) (tg : String → String) : List (List (String × String)) :=
  (findAll nod (tg "roi")).map (fun roi =>
    ["imageSOP_UID", "xCoord", "yCoord"].foldl (fun acc name =>
      match findChild roi (tg name) with
      | some e =>
        match e.text with
        | some t => if t ≠ "" then acc ++ [(name, t)] else acc
        | none => acc
      | none => acc) [])

/-- `parse_radiology_sample` after the XML has been loaded: expected header
fields (with the `MISSING` sentinel), then one record per
`unblindedReadNodule` with nodule id, flattened characteristics and
`roi_count`. -/
def parse_radiology_sample (root : Element) : List Record :=
  let parseCase := detect_parse_case root
  let expectedAttrs := get_expected_attributes_for_case parseCase
  let nsUri := nsOf root.tag
  let tg := fun n => qualifyTag nsUri n
  let headerValues : Record :=
    match findChild root (tg "ResponseHeader") with
    | none => []
    | some header =>
      expectedAttrs.header.foldl (fun acc field =>
        match findChild header (tg field) with
        | some elem =>
          match elem.text with
          | some t =>
            if t ≠ "" then dinsert acc field (Val.s t) else dinsert acc field (Val.s "MISSING")
          | none => dinsert acc field (Val.s "MISSING")
        | none => dinsert acc field (Val.s "MISSING")) []
  (findAll root (tg "unblindedReadNodule")).map (fun nod =>
    let record := headerValues
    let record :=
      match findChild nod (tg "noduleID") with
      | some e =>
        match e.text with
        | some t => if t ≠ "" then dinsert record "noduleID" (Val.s t) else record
        | none => record
      | none => record
    let record := (extract_characteristics nod tg).foldl
      (fun r p => dinsert r p.1 (Val.s p.2)) record
    dinsert record "roi_count" (Val.n (extract_roi_data nod tg).length))

/-- Data-frame columns: union of record keys in order of first appearance
(pandas `DataFrame(records).columns`). -/
def columns (records : List Record) : List String :=
  records.foldl (fun acc r => r.foldl (fun acc2 p => insertIfAbsent acc2 p.1) acc) []

/-! ### XMLKeywordExtractor (xml_keyword_extractor.py) -/

/-- An extracted keyword with source tracking (the free-form metadata dict
of the source is not modelled; claims do not mention it). -/
structure Kw where
  text : String
  category : String
  source_file : String
  nodule_id : Option String
  context : String
  normalized_form : Option String
deriving DecidableEq

/-- `self.characteristic_descriptors`: the fixed value-to-descriptor tables
for the eight characteristics with semantic keywords. -/
def characteristic_descriptors : List (String × List (String × List String)) :=
  [("subtlety",
    [("1", ["extremely_subtle", "barely_visible"]),
     ("2", ["moderately_subtle", "faint"]),
     ("3", ["fairly_subtle", "visible"]),
     ("4", ["moderately_obvious", "clear"]),
     ("5", ["obvious", "very_clear"])]),
   ("malignancy",
    [("1", ["highly_unlikely_malignant", "benign"]),
     ("2", ["moderately_unlikely_malignant", "probably_benign"]),
     ("3", ["indeterminate", "uncertain"]),
     ("4", ["moderately_suspicious", "possibly_malignant"]),
     ("5", ["highly_suspicious", "likely_malignant"])]),
   ("calcification",
    [("1", ["popcorn", "benign_calcification"]),
     ("2", ["laminated", "concentric"]),
     ("3", ["solid", "dense"]),
     ("4", ["non_central", "eccentric"]),
     ("5", ["central", "centrally_located"]),
     ("6", ["absent", "no_calcification"])]),
   ("sphericity",
    [("1", ["linear", "elongated"]),
     ("3", ["ovoid", "oval"]),
     ("5", ["round", "spherical"])]),
   ("margin",
    [("1", ["poorly_defined", "indistinct"]),
     ("2", ["near_poorly_defined", "somewhat_indistinct"]),
     ("3", ["medium_margin", "moderate"]),
     ("4", ["near_sharp", "relatively_sharp"]),
     ("5", ["sharp", "well_defined"])]),
   ("lobulation",
    [("1", ["marked_lobulation", "highly_lobulated"]),
     ("2", ["near_marked", "moderately_lobulated"]),
     ("3", ["medium_lobulation", "some_lobulation"]),
     ("4", ["near_none", "minimal_lobulation"]),
     ("5", ["no_lobulation", "smooth"])]),
   ("spiculation",
    [("1", ["marked_spiculation", "highly_spiculated"]),
     ("2", ["near_marked", "moderately_spiculated"]),
     ("3", ["medium_spiculation", "some_spiculation"]),
     ("4", ["near_none", "minimal_spiculation"]),
     ("5", ["no_spiculation", "smooth_border"])]),
   ("texture",
    [("1", ["non_solid", "ground_glass"]),
     ("2", ["near_non_solid", "mostly_ground_glass"]),
     ("3", ["part_solid", "mixed"]),
     ("4", ["near_solid", "mostly_solid"]),
     ("5", ["solid", "completely_solid"])])]

/-- `A.B.C` split on dots (Python `str.split` with a separator). -/
def splitOnChar (c : Char) : List Char → List (List Char)
  | [] => [[]]
  | a :: t =>
    match splitOnChar c t with
    | [] => [[a]]
    | h :: r => if a == c then [] :: h :: r else (a :: h) :: r

/-- `_extract_header_keywords`: modality (lowercased) and the last
dot-separated segment of the study UID, from the first row. -/
def extract_header_keywords (records : List Record) (cols : List String) (sourceFile : String) :
    List Kw :=
  match records with
  | [] => []
  | row :: _ =>
    (if cols.contains "Modality" then
      match alookup row "Modality" with
      | some v =>
        [{ text := lowerStr (valStr v), category := "header", source_file := sourceFile,
           nodule_id := none, context := "imaging_modality", normalized_form := none }]
      | none => []
    else []) ++
    (if cols.contains "StudyInstanceUID" then
      match alookup row "StudyInstanceUID" with
      | some v =>
        let uidParts := splitOnChar '.' (valStr v).data
        [{ text := "study_" ++ (⟨uidParts.getLastD []⟩ : String), category := "header",
           source_file := sourceFile, nodule_id := none, context := "study_identifier",
           normalized_form := none }]
      | none => []
    else [])

/-- `_extract_characteristic_keywords`: per row, one keyword per present
characteristic name plus the mapped semantic descriptor keywords. -/
def extract_characteristic_keywords (records : List Record) (sourceFile : String) : List Kw :=
  records.enum.flatMap (fun pr =>
    match alookup pr.2 "Characteristics" with
    | some (Val.d charmap) =>
      let noduleId :=
        match alookup pr.2 "NoduleID" with
        | some v => valStr v
        | none => toString pr.1
      charmap.flatMap (fun ch =>
        { text := lowerStr ch.1, category := "characteristic", source_file := sourceFile,
          nodule_id := some noduleId, context := ch.1 ++ "=" ++ ch.2,
          normalized_form := none } ::
        (match alookup characteristic_descriptors (lowerStr ch.1) with
         | some vmap =>
           ((alookup vmap ch.2).getD []).map (fun descriptor =>
             { text := descriptor, category := "characteristic_semantic",
               source_file := sourceFile, nodule_id := some noduleId,
               context := ch.1 ++ "=" ++ ch.2, normalized_form := none })
         | none => []))
    | _ => [])

/-- `_extract_roi_keywords`: one `roi_size_<N>_points` keyword per row with
a non-empty coordinate list. -/
def extract_roi_keywords (records : List Record) (sourceFile : String) : List Kw :=
  records.enum.flatMap (fun pr =>
    match alookup pr.2 "ROI_Coords" with
    | some (Val.lst coords) =>
      if coords.isEmpty then []
      else
        let noduleId :=
          match alookup pr.2 "NoduleID" with
          | some v => valStr v
          | none => toString pr.1
        [{ text := "roi_size_" ++ toString coords.length ++ "_points", category := "roi",
           source_file := sourceFile, nodule_id := some noduleId,
           context := "ROI with " ++ toString coords.length ++ " coordinate points",
           normalized_form := none }]
    | _ => [])

/-- `XMLKeywordExtractor.extract_from_xml`.  The document argument is the
outcome of loading and parsing the file: `.error` stands for any raised
exception (file missing, malformed XML), which the source catches and logs,
returning the keywords collected so far (none, since parsing is the first
step).  Every returned keyword gets its normalized form filled in. -/
def extract_from_xml (mt : MedicalTerms) (doc : Except Unit Element) (xmlFile : String)
    (extractCharacteristics extractHeader extractRoi : Bool) : List Kw :=
  match doc with
  | .error _ => []
  | .ok root =>
    let records := parse_radiology_sample root
    if records.isEmpty then []
    else
      let cols := columns records
      let kws :=
        (if extractHeader && cols.contains "StudyInstanceUID" then
          extract_header_keywords records cols xmlFile
        else []) ++
        (if extractCharacteristics && cols.contains "Characteristics" then
          extract_characteristic_keywords records xmlFile
        else []) ++
        (if extractRoi && cols.contains "ROI_Coords" then
          extract_roi_keywords records xmlFile
        else [])
      kws.map (fun k => { k with normalized_form := some (normalize mt k.text) })

/-- `XMLKeywordExtractor.extract_from_multiple`: the result mapping paired
with the trace of progress-callback invocations `(index from 1, total,
file)`. -/
def extract_from_multiple (mt : MedicalTerms) (xmlFiles : List (String × Except Unit Element)) :
    List (String × List Kw) × List (Nat × Nat × String) :=
  let total := xmlFiles.length
  (xmlFiles.map (fun f => (f.1, extract_from_xml mt f.2 f.1 true true false)),
   xmlFiles.enum.map (fun pr => (pr.1 + 1, total, pr.2.1)))

/-- The empty dictionary (the loader's fallback). -/
def mtEmpty : MedicalTerms :=
  { synonyms := [], abbreviations := [], multi_word_terms := [], stopwords := [] }

/-- LIDC document with one nodule carrying `subtlety = 5` and
`malignancy = 1`. -/
def exC1 : Element :=
  .mk "LidcReadMessage" none
    [.mk "readingSession" none [],
     .mk "unblindedReadNodule" none
       [.mk "noduleID" (some "Nodule-001") [],
        .mk "characteristics" none
          [.mk "subtlety" (some "5") [], .mk "malignancy" (some "1") []]]]

/-- C1: the parser flattens each present characteristic into its own
column, yet `extract_from_xml` only emits characteristic keywords when a
`Characteristics` column exists, so a document whose nodule has
`subtlety = 5` and `malignancy = 1` yields no keywords at all — although
the extractor's own per-row routine, fed the characteristics mapping it
expects, produces exactly the keywords the claim describes. -/
theorem C1_code_bug :
    parse_radiology_sample exC1 =
      [[("noduleID", Val.s "Nodule-001"), ("subtlety", Val.s "5"),
        ("malignancy", Val.s "1"), ("roi_count", Val.n 0)]] ∧
    extract_from_xml mtEmpty (.ok exC1) "scan.xml" true true false = [] ∧
    (extract_characteristic_keywords
        [[("Characteristics", Val.d [("subtlety", "5"), ("malignancy", "1")]),
          ("NoduleID", Val.s "Nodule-001")]] "scan.xml").map
      (fun k => (k.text, k.category)) =
      [("subtlety", "characteristic"), ("obvious", "characteristic_semantic"),
       ("very_clear", "characteristic_semantic"), ("malignancy", "characteristic"),
       ("highly_unlikely_malignant", "characteristic_semantic"),
       ("benign", "characteristic_semantic")] := by
  refine ⟨by decide, by decide, by decide⟩

/-- Batch input with one failing and one succeeding document. -/
def filesC7 : List (String × Except Unit Element) :=
  [("bad.xml", .error ()), ("good.xml", .ok exC1)]

/-- C7 counterexample: a document whose extraction fails is still a key of
the returned result mapping (with an empty keyword list), not excluded from
it, and the remaining documents are processed. -/
theorem C7_counterexample :
    alookup (extract_from_multiple mtEmpty filesC7).1 "bad.xml" = some [] ∧
    (extract_from_multiple mtEmpty filesC7).1.map Prod.fst = ["bad.xml", "good.xml"] := by
  refine ⟨by decide, by decide⟩

/-- C7 (amended): batch extraction maps every input document — including
failing ones, whose caught failure yields an empty keyword list — to an
entry of the result mapping, processes all documents independently, and
invokes the progress callback with `(index from 1, total, file)` for each
item. -/
theorem C7_batch (mt : MedicalTerms) (files : List (String × Except Unit Element)) :
    (extract_from_multiple mt files).1.length = files.length ∧
    (∀ i : Nat, (extract_from_multiple mt files).1[i]? =
      files[i]?.map (fun f => (f.1, extract_from_xml mt f.2 f.1 true true false))) ∧
    (∀ i : Nat, (extract_from_multiple mt files).2[i]? =
      files[i]?.map (fun f => (i + 1, files.length, f.1))) := by
  refine ⟨by simp [extract_from_multiple], ?_, ?_⟩
  · intro i
    simp [extract_from_multiple, List.getElem?_map]
  · intro i
    simp only [extract_from_multiple, List.getElem?_map, List.getElem?_enum]
    cases files[i]? with
    | none => rfl
    | some f => rfl

/-! ### AutoAnalyzer confidence (auto_analysis.py) -/

/-- Python 3 `round(x)` (round half to even) as an integer. -/
def bankersRound (q : ℚ) : ℤ :=
  let n : ℤ := ⌊q⌋
  let f : ℚ := q - n
  if f < 1/2 then n
  else if 1/2 < f then n + 1
  else if n % 2 = 0 then n else n + 1

/-- Python `round(x, 2)`. -/
def round2 (q : ℚ) : ℚ := (bankersRound (q * 100) : ℚ) / 100

/-- Truthiness of `kw.normalized_form`: present and non-empty. -/
def kwNormalizedNonempty (k : Kw) : Bool :=
  match k.normalized_form with
  | some s => !(s == "")
  | none => false

/-- `AutoAnalyzer._calculate_confidence`: 0.5 for an empty keyword list,
otherwise `round(0.4 * categoryScore + 0.6 * normalizationScore, 2)`. -/
def calculate_confidence (keywords : List Kw) : ℚ :=
  if keywords.isEmpty then 1/2
  else
    let categories := dedupL (keywords.map (·.category))
    let categoryScore : ℚ := min ((categories.length : ℚ) / 5) 1
    let normalizedCount := keywords.countP kwNormalizedNonempty
    let normalizationScore : ℚ := (normalizedCount : ℚ) / (keywords.length : ℚ)
    round2 (categoryScore * (2/5) + normalizationScore * (3/5))

theorem bankersRound_le (q : ℚ) : ⌊q⌋ ≤ bankersRound q ∧ bankersRound q ≤ ⌊q⌋ + 1 := by
  unfold bankersRound
  dsimp only
  split
  · omega
  · split
    · omega
    · split <;> omega

theorem bankersRound_intCast (z : ℤ) : bankersRound (z : ℚ) = z := by
  unfold bankersRound
  rw [Int.floor_intCast]
  norm_num

theorem round2_bounds {q : ℚ} (h0 : 0 ≤ q) (h1 : q ≤ 1) :
    0 ≤ round2 q ∧ round2 q ≤ 1 := by
  have h100 : (0 : ℚ) ≤ q * 100 := by nlinarith
  have hn0 : 0 ≤ ⌊q * 100⌋ := Int.floor_nonneg.mpr h100
  obtain ⟨hlo, hhi⟩ := bankersRound_le (q * 100)
  constructor
  · unfold round2
    have : (0 : ℤ) ≤ bankersRound (q * 100) := le_trans hn0 hlo
    have : (0 : ℚ) ≤ (bankersRound (q * 100) : ℚ) := by exact_mod_cast this
    linarith
  · rcases eq_or_lt_of_le (by nlinarith : q * 100 ≤ 100) with heq | hlt
    · unfold round2
      rw [heq]
      rw [show ((100 : ℚ)) = ((100 : ℤ) : ℚ) by norm_num, bankersRound_intCast]
      norm_num
    · have hfl : ⌊q * 100⌋ ≤ 99 := by
        have : (⌊q * 100⌋ : ℚ) ≤ q * 100 := Int.floor_le _
        have : (⌊q * 100⌋ : ℚ) < 100 := lt_of_le_of_lt this hlt
        exact_mod_cast Int.lt_add_one_iff.mp (by exact_mod_cast this)
      have hr : bankersRound (q * 100) ≤ 100 := by omega
      unfold round2
      have : (bankersRound (q * 100) : ℚ) ≤ 100 := by exact_mod_cast hr
      linarith

/-- C2: the overall extraction confidence is always in `[0, 1]` with
2-decimal precision; for a non-empty keyword list it equals
`round(0.4 * min(distinctCategoryCount / 5, 1) + 0.6 * (fraction of
keywords with non-empty normalized form), 2)`, and for the empty list it is
exactly `0.5`. -/
theorem C2_confidence (keywords : List Kw) :
    (0 ≤ calculate_confidence keywords ∧ calculate_confidence keywords ≤ 1 ∧
      ∃ n : ℤ, calculate_confidence keywords * 100 = n) ∧
    (keywords ≠ [] →
      calculate_confidence keywords =
        round2 (min (((dedupL (keywords.map (·.category))).length : ℚ) / 5) 1 * (2/5) +
          ((keywords.countP kwNormalizedNonempty : ℚ) / (keywords.length : ℚ)) * (3/5))) ∧
    calculate_confidence [] = 1/2 := by
  refine ⟨?_, ?_, by norm_num [calculate_confidence]⟩
  · cases keywords with
    | nil =>
      refine ⟨by norm_num [calculate_confidence], by norm_num [calculate_confidence], 50, ?_⟩
      norm_num [calculate_confidence]
    | cons k0 rest =>
      have hne : ((k0 :: rest : List Kw)).isEmpty = false := rfl
      set kws : List Kw := k0 :: rest with hkws
      have hval : calculate_confidence kws =
          round2 (min (((dedupL (kws.map (·.category))).length : ℚ) / 5) 1 * (2/5) +
            ((kws.countP kwNormalizedNonempty : ℚ) / (kws.length : ℚ)) * (3/5)) := by
        simp [calculate_confidence, hne]
      set cs : ℚ := min (((dedupL (kws.map (·.category))).length : ℚ) / 5) 1 with hcs
      set ns : ℚ := (kws.countP kwNormalizedNonempty : ℚ) / (kws.length : ℚ) with hns
      have hcs0 : 0 ≤ cs := by
        rw [hcs]
        exact le_min (by positivity) zero_le_one
      have hcs1 : cs ≤ 1 := min_le_right _ _
      have hlen : (0 : ℚ) < (kws.length : ℚ) := by
        rw [hkws]
        simp only [List.length_cons]
        positivity
      have hns0 : 0 ≤ ns := by
        rw [hns]
        positivity
      have hns1 : ns ≤ 1 := by
        rw [hns, div_le_one hlen]
        exact_mod_cast List.countP_le_length kwNormalizedNonempty
      have hx0 : 0 ≤ cs * (2/5) + ns * (3/5) := by nlinarith
      have hx1 : cs * (2/5) + ns * (3/5) ≤ 1 := by nlinarith
      obtain ⟨hb0, hb1⟩ := round2_bounds hx0 hx1
      refine ⟨by rw [hval]; exact hb0, by rw [hval]; exact hb1, bankersRound ((cs * (2/5) + ns * (3/5)) * 100), ?_⟩
      rw [hval]
      unfold round2
      ring
  · intro h
    cases keywords with
    | nil => exact absurd rfl h
    | cons k0 rest =>
      simp [calculate_confidence]

/-- Concrete keyword used to witness C2. -/
def kwC2 : Kw :=
  { text := "ct", category := "header", source_file := "scan.xml", nodule_id := none,
    context := "imaging_modality", normalized_form := some "ct" }

/-- Witness for C2: the confidence of a concrete singleton keyword list
equals the rounded weighted score. -/
theorem C2_witness :
    calculate_confidence [kwC2] =
      round2 (min (((dedupL (([kwC2] : List Kw).map (·.category))).length : ℚ) / 5) 1 * (2/5) +
        ((([kwC2] : List Kw).countP kwNormalizedNonempty : ℚ) /
          (([kwC2] : List Kw).length : ℚ)) * (3/5)) :=
  ((C2_confidence [kwC2]).2.1 (by simp))

/-! ### QueryParser and KeywordSearchEngine (keyword_search.py) -/

/-- Length of the whitespace run of `cs` starting at position `i`. -/
def wsRun (cs : List Char) (i : Nat) : Nat :=
  ((cs.drop i).takeWhile pyIsSpace).length

/-- Match the separator pattern (one or more whitespace characters, the
word `w` case-insensitively, one or more whitespace characters) at position
`i`; returns the match length.  This is the semantics of the compiled
patterns `\s+AND\s+` and `\s+OR\s+` of `QueryParser`. -/
def matchSepAt (w : List Char) (cs : List Char) (i : Nat) : Option Nat :=
  let a := wsRun cs i
  if a = 0 then none
  else if startsWith w (lowerL (cs.drop (i + a))) then
    let b := wsRun cs (i + a + w.length)
    if b = 0 then none else some (a + w.length + b)
  else none

/-- Leftmost separator match: position and length (`re.search`). -/
def findSepIdx (w : List Char) (cs : List Char) : Option (Nat × Nat) :=
  ((List.range cs.length).find? (fun i => (matchSepAt w cs i).isSome)).bind
    (fun i => (matchSepAt w cs i).map (fun len => (i, len)))

/-- `re.split` on the separator pattern, with fuel (input length plus one
always suffices because every match consumes at least one character). -/
def splitSepGo (w : List Char) : Nat → List Char → List (List Char)
  | 0, cs => [cs]
  | fuel + 1, cs =>
    match findSepIdx w cs with
    | none => [cs]
    | some pr => cs.take pr.1 :: splitSepGo w fuel (cs.drop (pr.1 + pr.2))

/-- `re.split` of the whole input. -/
def splitSep (w : List Char) (cs : List Char) : List (List Char) :=
  splitSepGo w (cs.length + 1) cs

/-- Python `str.split()` with no argument: whitespace-separated tokens. -/
def splitWsGo : Nat → List Char → List (List Char)
  | 0, _ => []
  | fuel + 1, cs =>
    match cs.dropWhile pyIsSpace with
    | [] => []
    | c :: rest =>
      let tok := (c :: rest).takeWhile (fun x => !pyIsSpace x)
      tok :: splitWsGo fuel ((c :: rest).drop tok.length)

/-- Python `str.split()`. -/
def splitWs (cs : List Char) : List (List Char) :=
  splitWsGo (cs.length + 1) cs

/-- Parsed query: operator (`AND`, `OR` or `SINGLE`) and lowercased terms. -/
structure ParsedQuery where
  op : String
  terms : List String
deriving DecidableEq

/-- `QueryParser.parse`: try the AND pattern, then the OR pattern, then
fall back to whitespace splitting (more than one token means AND, exactly
one means SINGLE). -/
def QueryParser_parse (query : String) : ParsedQuery :=
  let q := pyStripL query.data
  if (findSepIdx ['a', 'n', 'd'] q).isSome then
    { op := "AND"
      terms := ((splitSep ['a', 'n', 'd'] q).filter (fun t => pyStripL t ≠ [])).map
        (fun t => (⟨lowerL (pyStripL t)⟩ : String)) }
  else if (findSepIdx ['o', 'r'] q).isSome then
    { op := "OR"
      terms := ((splitSep ['o', 'r'] q).filter (fun t => pyStripL t ≠ [])).map
        (fun t => (⟨lowerL (pyStripL t)⟩ : String)) }
  else
    let terms := splitWs q
    if terms.length > 1 then
      { op := "AND"
        terms := (terms.filter (fun t => pyStripL t ≠ [])).map
          (fun t => (⟨lowerL (pyStripL t)⟩ : String)) }
    else
      { op := "SINGLE", terms := [(⟨lowerL q⟩ : String)] }

/-- Is `ndl` a contiguous substring of `hay` (Python `in` on strings)? -/
def isSubstr (ndl hay : List Char) : Bool :=
  match hay with
  | [] => ndl.isEmpty
  | _ :: t => startsWith ndl hay || isSubstr ndl t

/-- String-level substring test. -/
def strIn (ndl hay : String) : Bool := isSubstr ndl.data hay.data

/-- One search result. -/
structure SearchResult where
  keyword_text : String
  normalized_form : String
  category : String
  relevance_score : ℚ
  matched_query_terms : List String
deriving DecidableEq

/-- `keyword_index[normalized].add(text)` on a `defaultdict(set)`,
determinized as an association list in insertion order. -/
def indexAdd (idx : List (String × List String)) (k s : String) : List (String × List String) :=
  if idx.any (fun p => p.1 == k) then
    idx.map (fun p => if p.1 == k then (p.1, insertIfAbsent p.2 s) else p)
  else idx ++ [(k, [s])]

/-- `KeywordSearchEngine.index_keywords`: store each original text under
its normalized form. -/
def index_keywords (mt : MedicalTerms) (idx : List (String × List String))
    (keywords : List (String × String × String)) : List (String × List String) :=
  keywords.foldl (fun idx kw => indexAdd idx (normalize mt kw.1) kw.1) idx

/-- The expanded query term set: every term plus, when enabled, all its
synonym forms (a Python set, determinized in insertion order). -/
def expandTerms (mt : MedicalTerms) (terms : List String) (expandSynonyms : Bool) : List String :=
  terms.foldl (fun acc term =>
    let acc := insertIfAbsent acc term
    if expandSynonyms then (get_all_forms mt term).foldl insertIfAbsent acc else acc) []

/-- Does one expanded term hit an index entry: substring of the canonical
key or of at least one stored surface form? -/
def entryMatchTerm (t : String) (nk : String) (forms : List String) : Bool :=
  strIn t nk || forms.any (fun f => strIn t f)

/-- `KeywordSearchEngine.search`: parse, expand, match every indexed entry
(AND requires every expanded term to hit; OR/SINGLE stops at the first
hitting term), score, filter by the relevance threshold, emit one result
per stored surface form, and sort by descending relevance (stable). -/
def search (mt : MedicalTerms) (index : List (String × List String)) (query : String)
    (expandSynonyms : Bool) (minRelevance : ℚ) : List SearchResult :=
  let parsed := QueryParser_parse query
  let expanded := expandTerms mt parsed.terms expandSynonyms
  let results := index.flatMap (fun entry =>
    let matched : Option (List String) :=
      if parsed.op == "AND" then
        if expanded.all (fun t => entryMatchTerm t entry.1 entry.2) then some expanded else none
      else
        match expanded.find? (fun t => entryMatchTerm t entry.1 entry.2) with
        | some t => some [t]
        | none => none
    match matched with
    | none => []
    | some ms =>
      let relevance : ℚ := (ms.length : ℚ) / ((max expanded.length 1 : Nat) : ℚ)
      if minRelevance ≤ relevance then
        entry.2.map (fun original =>
          { keyword_text := original, normalized_form := entry.1, category := "keyword",
            relevance_score := relevance, matched_query_terms := ms })
      else [])
  pySortBy (fun a b => decide (b.relevance_score ≤ a.relevance_score)) results

theorem mem_insertIfAbsent {α : Type} [DecidableEq α] (l : List α) (a x : α) :
    x ∈ insertIfAbsent l a ↔ x ∈ l ∨ x = a := by
  unfold insertIfAbsent
  by_cases h : a ∈ l
  · rw [if_pos h]
    constructor
    · exact Or.inl
    · rintro (hx | rfl)
      · exact hx
      · exact h
  · rw [if_neg h]
    simp

/-- The C10 membership relation: surface form `s` is stored under
canonical key `k` in the index. -/
def memIndex (idx : List (String × List String)) (k s : String) : Prop :=
  ∃ forms, (k, forms) ∈ idx ∧ s ∈ forms

theorem indexAdd_invariant {mt : MedicalTerms} {idx : List (String × List String)} {t : String}
    (hP : ∀ k s, memIndex idx k s → normalize mt s = k) :
    ∀ k s, memIndex (indexAdd idx (normalize mt t) t) k s → normalize mt s = k := by
  intro k s hm
  obtain ⟨forms, hmem, hs⟩ := hm
  unfold indexAdd at hmem
  by_cases hany : (idx.any fun p => p.1 == normalize mt t) = true
  · rw [if_pos hany] at hmem
    rcases List.mem_map.mp hmem with ⟨p, hp, heq⟩
    by_cases hpk : (p.1 == normalize mt t) = true
    · rw [if_pos hpk] at heq
      have hk : p.1 = k := congrArg Prod.fst heq
      have hf : insertIfAbsent p.2 t = forms := congrArg Prod.snd heq
      rw [← hf] at hs
      rcases (mem_insertIfAbsent p.2 t s).mp hs with hold | rfl
      · exact hP k s ⟨p.2, by rw [← hk]; exact hp, hold⟩
      · rw [← hk]
        exact (eq_of_beq hpk).symm
    · rw [if_neg hpk] at heq
      rw [heq] at hp
      exact hP k s ⟨forms, hp, hs⟩
  · rw [if_neg hany] at hmem
    rcases List.mem_append.mp hmem with hold | hnew
    · exact hP k s ⟨forms, hold, hs⟩
    · simp at hnew
      obtain ⟨hk, hf⟩ := hnew
      rw [hf] at hs
      simp at hs
      rw [hs, hk]

theorem index_keywords_invariant {mt : MedicalTerms} :
    ∀ (kws : List (String × String × String)) (idx : List (String × List String)),
      (∀ k s, memIndex idx k s → normalize mt s = k) →
      ∀ k s, memIndex (index_keywords mt idx kws) k s → normalize mt s = k := by
  intro kws
  induction kws with
  | nil => intro idx hP; exact hP
  | cons kw rest ih =>
    intro idx hP
    exact ih _ (indexAdd_invariant hP)

/-- C10: after any sequence of `index_keywords` calls starting from the
empty index, every surface form `s` stored under a canonical key `k`
satisfies `normalize s = k` (the key under which a text is stored is by
construction its own normalization). -/
theorem C10_index_invariant (mt : MedicalTerms)
    (calls : List (List (String × String × String))) (k s : String)
    (h : memIndex (calls.foldl (fun idx c => index_keywords mt idx c) []) k s) :
    normalize mt s = k := by
  suffices H : ∀ (cs : List (List (String × String × String)))
      (idx : List (String × List String)),
      (∀ k s, memIndex idx k s → normalize mt s = k) →
      ∀ k s, memIndex (cs.foldl (fun idx c => index_keywords mt idx c) idx) k s →
        normalize mt s = k by
    refine H calls [] ?_ k s h
    intro k s hm
    obtain ⟨forms, hmem, -⟩ := hm
    simp at hmem
  intro cs
  induction cs with
  | nil => intro idx hP; exact hP
  | cons c rest ih =>
    intro idx hP
    exact ih _ (index_keywords_invariant c idx hP)

/-- Dictionary used by the search witnesses. -/
def mtC9w : MedicalTerms :=
  { synonyms := [("pulmonary", ["lung"])]
    abbreviations := [("ct", "computed tomography")]
    multi_word_terms := []
    stopwords := [] }

/-- Witness for C10: indexing `"LUNG"` stores it under `"pulmonary"`, and
the invariant instantiated there yields `normalize "LUNG" = "pulmonary"`. -/
theorem C10_witness : normalize mtC9w "LUNG" = "pulmonary" :=
  C10_index_invariant mtC9w [[("LUNG", "anatomy", "ctx")]] "pulmonary" "LUNG"
    ⟨["LUNG"], by decide, by decide⟩

/-! ### Helper lemmas for the search theorems -/

theorem mem_dropWhile_of_false {p : Char → Bool} {x : Char} {l : List Char}
    (hx : x ∈ l) (hp : p x = false) : x ∈ l.dropWhile p := by
  induction l with
  | nil => simp at hx
  | cons a t ih =>
    by_cases ha : p a
    · rw [List.dropWhile_cons, if_pos ha]
      rcases List.mem_cons.mp hx with rfl | hxt
      · rw [hp] at ha; simp at ha
      · exact ih hxt
    · rw [List.dropWhile_cons, if_neg ha]
      exact hx

theorem rstripL_ne_nil {l : List Char} {x : Char} (hx : x ∈ l) (hp : pyIsSpace x = false) :
    rstripL l ≠ [] := by
  unfold rstripL
  intro h
  rw [List.reverse_eq_nil_iff] at h
  have hxr : x ∈ l.reverse.dropWhile pyIsSpace :=
    mem_dropWhile_of_false (List.mem_reverse.mpr hx) hp
  rw [h] at hxr
  simp at hxr

theorem pyStripL_ne_nil {l : List Char} {x : Char} (hx : x ∈ l) (hp : pyIsSpace x = false) :
    pyStripL l ≠ [] := by
  unfold pyStripL
  exact rstripL_ne_nil (mem_dropWhile_of_false hx hp) hp

theorem pyStripL_head_false {l : List Char} {c : Char} {t : List Char}
    (h : pyStripL l = c :: t) : pyIsSpace c = false := by
  unfold pyStripL at h
  obtain ⟨u, hu⟩ := rstripL_append_eq (lstripL l)
  rw [h] at hu
  cases hl : lstripL l with
  | nil => rw [hl] at hu; simp at hu
  | cons c' t' =>
    have hc' : pyIsSpace c' = false := dropWhile_head_false hl
    rw [hl] at hu
    have : c = c' := by
      have := congrArg List.head? hu
      simpa using this
    rwa [this]

theorem splitWsGo_tokens :
    ∀ (fuel : Nat) (cs tk : List Char), tk ∈ splitWsGo fuel cs →
      tk ≠ [] ∧ ∀ c ∈ tk, pyIsSpace c = false := by
  intro fuel
  induction fuel with
  | zero => intro cs tk h; simp [splitWsGo] at h
  | succ n ih =>
    intro cs tk h
    rw [splitWsGo] at h
    cases hd : cs.dropWhile pyIsSpace with
    | nil => rw [hd] at h; simp at h
    | cons c rest =>
      rw [hd] at h
      rcases List.mem_cons.mp h with rfl | hrec
      · have hc : pyIsSpace c = false := dropWhile_head_false hd
        constructor
        · have : (c :: rest).takeWhile (fun x => !pyIsSpace x) = c :: rest.takeWhile (fun x => !pyIsSpace x) := by
            rw [List.takeWhile_cons, if_pos (by simp [hc])]
          rw [this]
          simp
        · intro x hx
          have := List.mem_takeWhile_imp hx
          simpa using this
      · exact ih _ _ hrec

theorem insertIfAbsent_ne_nil {α : Type} [DecidableEq α] (l : List α) (a : α) :
    insertIfAbsent l a ≠ [] := by
  unfold insertIfAbsent
  by_cases h : a ∈ l
  · rw [if_pos h]
    exact List.ne_nil_of_mem h
  · rw [if_neg h]
    simp

theorem foldl_insertIfAbsent_ne_nil {α : Type} [DecidableEq α] :
    ∀ (xs acc : List α), acc ≠ [] → xs.foldl insertIfAbsent acc ≠ [] := by
  intro xs
  induction xs with
  | nil => intro acc h; exact h
  | cons a t ih =>
    intro acc _
    exact ih _ (insertIfAbsent_ne_nil acc a)

theorem expandTerms_ne_nil (mt : MedicalTerms) (es : Bool) :
    ∀ (terms : List String), terms ≠ [] → expandTerms mt terms es ≠ [] := by
  have step_ne : ∀ (acc : List String) (term : String),
      (let acc2 := insertIfAbsent acc term
       if es then (get_all_forms mt term).foldl insertIfAbsent acc2 else acc2) ≠ [] := by
    intro acc term
    dsimp only
    by_cases hes : es = true
    · rw [if_pos hes]
      exact foldl_insertIfAbsent_ne_nil _ _ (insertIfAbsent_ne_nil acc term)
    · rw [if_neg hes]
      exact insertIfAbsent_ne_nil acc term
  have go_ne : ∀ (ts : List String) (acc : List String), acc ≠ [] →
      ts.foldl (fun acc term =>
        let acc := insertIfAbsent acc term
        if es then (get_all_forms mt term).foldl insertIfAbsent acc else acc) acc ≠ [] := by
    intro ts
    induction ts with
    | nil => intro acc h; exact h
    | cons t rest ih =>
      intro acc _
      exact ih _ (step_ne acc t)
  intro terms h
  cases terms with
  | nil => exact absurd rfl h
  | cons t ts =>
    unfold expandTerms
    rw [List.foldl_cons]
    exact go_ne ts _ (step_ne [] t)

theorem pyInsertBy_append_of_le {α : Type} (le : α → α → Bool) (a : α) :
    ∀ (l : List α), (∀ x ∈ l, le x a = true) → pyInsertBy le a l = l ++ [a] := by
  intro l
  induction l with
  | nil => intro _; rfl
  | cons b t ih =>
    intro h
    have hb : le b a = true := h b (List.mem_cons_self b t)
    simp only [pyInsertBy, hb, if_true]
    rw [ih (fun x hx => h x (List.mem_cons_of_mem b hx))]
    simp

theorem pySortBy_eq_self {α : Type} (le : α → α → Bool) (l : List α)
    (h : ∀ x ∈ l, ∀ y ∈ l, le x y = true) : pySortBy le l = l := by
  have go : ∀ (m acc : List α), (∀ x ∈ acc, ∀ y ∈ m, le x y = true) →
      (∀ x ∈ m, ∀ y ∈ m, le x y = true) →
      m.foldl (fun acc a => pyInsertBy le a acc) acc = acc ++ m := by
    intro m
    induction m with
    | nil => intro acc _ _; simp
    | cons a t ih =>
      intro acc h1 h2
      rw [List.foldl_cons]
      rw [pyInsertBy_append_of_le le a acc (fun x hx => h1 x hx a (List.mem_cons_self a t))]
      rw [ih (acc ++ [a]) ?_ ?_]
      · simp
      · intro x hx y hy
        rcases List.mem_append.mp hx with hxa | hxs
        · exact h1 x hxa y (List.mem_cons_of_mem a hy)
        · simp at hxs
          rw [hxs]
          exact h2 a (List.mem_cons_self a t) y (List.mem_cons_of_mem a hy)
      · intro x hx y hy
        exact h2 x (List.mem_cons_of_mem a hx) y (List.mem_cons_of_mem a hy)
  exact go l [] (by simp) h

theorem isSubstr_nil (l : List Char) : isSubstr [] l = true := by
  cases l <;> simp [isSubstr, startsWith, List.isEmpty]

theorem parse_shape_and {q : String}
    (h : (findSepIdx ['a', 'n', 'd'] (pyStripL q.data)).isSome = true) :
    QueryParser_parse q =
      { op := "AND"
        terms := ((splitSep ['a', 'n', 'd'] (pyStripL q.data)).filter
          (fun t => pyStripL t ≠ [])).map (fun t => (⟨lowerL (pyStripL t)⟩ : String)) } := by
  unfold QueryParser_parse
  dsimp only
  rw [if_pos h]

theorem parse_shape_or {q : String}
    (h1 : (findSepIdx ['a', 'n', 'd'] (pyStripL q.data)).isSome = false)
    (h2 : (findSepIdx ['o', 'r'] (pyStripL q.data)).isSome = true) :
    QueryParser_parse q =
      { op := "OR"
        terms := ((splitSep ['o', 'r'] (pyStripL q.data)).filter
          (fun t => pyStripL t ≠ [])).map (fun t => (⟨lowerL (pyStripL t)⟩ : String)) } := by
  unfold QueryParser_parse
  dsimp only
  rw [if_neg (by simp [h1]), if_pos h2]

theorem parse_shape_ws {q : String}
    (h1 : (findSepIdx ['a', 'n', 'd'] (pyStripL q.data)).isSome = false)
    (h2 : (findSepIdx ['o', 'r'] (pyStripL q.data)).isSome = false)
    (h3 : (splitWs (pyStripL q.data)).length > 1) :
    QueryParser_parse q =
      { op := "AND"
        terms := ((splitWs (pyStripL q.data)).filter
          (fun t => pyStripL t ≠ [])).map (fun t => (⟨lowerL (pyStripL t)⟩ : String)) } := by
  unfold QueryParser_parse
  dsimp only
  rw [if_neg (by simp [h1]), if_neg (by simp [h2]), if_pos h3]

theorem parse_shape_single {q : String}
    (h1 : (findSepIdx ['a', 'n', 'd'] (pyStripL q.data)).isSome = false)
    (h2 : (findSepIdx ['o', 'r'] (pyStripL q.data)).isSome = false)
    (h3 : ¬ (splitWs (pyStripL q.data)).length > 1) :
    QueryParser_parse q =
      { op := "SINGLE", terms := [(⟨lowerL (pyStripL q.data)⟩ : String)] } := by
  unfold QueryParser_parse
  dsimp only
  rw [if_neg (by simp [h1]), if_neg (by simp [h2]), if_neg h3]

theorem wsRun_ne_zero_of_matchSepAt {w cs : List Char} {i len : Nat}
    (h : matchSepAt w cs i = some len) : wsRun cs i ≠ 0 := by
  intro h0
  unfold matchSepAt at h
  rw [if_pos h0] at h
  simp at h

/-- A query that parses with operator AND always has a non-empty term
list: the AND separator needs whitespace before it, so the first split
piece starts with the stripped query's non-whitespace head; in the
whitespace-split branch there are at least two whitespace-free tokens. -/
theorem parse_AND_terms_ne_nil (query : String)
    (hop : (QueryParser_parse query).op = "AND") :
    (QueryParser_parse query).terms ≠ [] := by
  by_cases hand : (findSepIdx ['a', 'n', 'd'] (pyStripL query.data)).isSome = true
  · set w : List Char := ['a', 'n', 'd'] with hw
    set qs : List Char := pyStripL query.data with hqs
    rw [parse_shape_and hand]
    cases hfind : (List.range qs.length).find? (fun i => (matchSepAt w qs i).isSome) with
    | none =>
      exfalso
      unfold findSepIdx at hand
      rw [hfind] at hand
      simp at hand
    | some i =>
      have hpred := List.find?_some hfind
      cases hm : matchSepAt w qs i with
      | none => rw [hm] at hpred; simp at hpred
      | some len =>
        have hws : wsRun qs i ≠ 0 := wsRun_ne_zero_of_matchSepAt hm
        cases hqc : qs with
        | nil =>
          rw [hqc] at hws
          simp [wsRun] at hws
        | cons c t =>
          have hc : pyIsSpace c = false := pyStripL_head_false (hqs ▸ hqc)
          have hi : i ≠ 0 := by
            intro h0
            rw [h0, hqc] at hws
            simp [wsRun, List.takeWhile_cons, hc] at hws
          obtain ⟨j, rfl⟩ := Nat.exists_eq_succ_of_ne_zero hi
          have hctake : c ∈ qs.take (j + 1) := by
            rw [hqc, List.take_succ_cons]
            exact List.mem_cons_self c _
          have hsplit : splitSep w qs =
              qs.take (j + 1) :: splitSepGo w qs.length (qs.drop ((j + 1) + len)) := by
            unfold splitSep
            rw [splitSepGo]
            have heq : findSepIdx w qs = some (j + 1, len) := by
              unfold findSepIdx
              rw [hfind]
              simp [hm]
            rw [heq]
          have hmem : qs.take (j + 1) ∈
              (splitSep w qs).filter (fun t => pyStripL t ≠ []) := by
            rw [hsplit]
            refine List.mem_filter.mpr ⟨List.mem_cons_self _ _, ?_⟩
            exact decide_eq_true (pyStripL_ne_nil hctake hc)
          exact List.ne_nil_of_mem (List.mem_map_of_mem _ hmem)
  · by_cases hor2 : (findSepIdx ['o', 'r'] (pyStripL query.data)).isSome = true
    · rw [parse_shape_or (by simpa using hand) hor2] at hop
      simp at hop
    · by_cases hlen : (splitWs (pyStripL query.data)).length > 1
      · rw [parse_shape_ws (by simpa using hand) (by simpa using hor2) hlen]
        cases hsw : splitWs (pyStripL query.data) with
        | nil => rw [hsw] at hlen; simp at hlen
        | cons t0 rest =>
          have hmem0 : t0 ∈ splitWsGo ((pyStripL query.data).length + 1) (pyStripL query.data) := by
            have hsw2 := hsw
            unfold splitWs at hsw2
            rw [hsw2]
            exact List.mem_cons_self t0 rest
          obtain ⟨hne, hnw⟩ := splitWsGo_tokens _ _ t0 hmem0
          obtain ⟨c0, t0t, rfl⟩ := List.exists_cons_of_ne_nil hne
          have hc0 : pyIsSpace c0 = false := hnw c0 (List.mem_cons_self c0 t0t)
          have hmem : (c0 :: t0t) ∈ ((c0 :: t0t) :: rest).filter
              (fun t => pyStripL t ≠ []) :=
            List.mem_filter.mpr ⟨List.mem_cons_self _ _,
              decide_eq_true (pyStripL_ne_nil (List.mem_cons_self c0 t0t) hc0)⟩
          exact List.ne_nil_of_mem (List.mem_map_of_mem _ hmem)
      · rw [parse_shape_single (by simpa using hand) (by simpa using hor2) hlen] at hop
        simp at hop

/-- C8: for every query that parses with operator AND, every returned
search result has relevance exactly 1 and carries the whole expanded term
set as its matched terms, so any relevance threshold of at most 1 drops
nothing (the result list equals the one with threshold 0). -/
theorem C8_and_relevance (mt : MedicalTerms) (index : List (String × List String))
    (query : String) (es : Bool) (minRel : ℚ)
    (hop : (QueryParser_parse query).op = "AND") (hmr : minRel ≤ 1) :
    (∀ r ∈ search mt index query es minRel,
      r.relevance_score = 1 ∧
      r.matched_query_terms = expandTerms mt (QueryParser_parse query).terms es) ∧
    search mt index query es minRel = search mt index query es 0 := by
  have hterms := parse_AND_terms_ne_nil query hop
  have hexp : expandTerms mt (QueryParser_parse query).terms es ≠ [] :=
    expandTerms_ne_nil mt es _ hterms
  have hlen : 0 < (expandTerms mt (QueryParser_parse query).terms es).length :=
    List.length_pos.mpr hexp
  have hrel : ((expandTerms mt (QueryParser_parse query).terms es).length : ℚ) /
      ((max (expandTerms mt (QueryParser_parse query).terms es).length 1 : Nat) : ℚ) = 1 := by
    rw [Nat.max_eq_left hlen]
    exact div_self (by exact_mod_cast Nat.pos_iff_ne_zero.mp hlen)
  have hbeq : ((QueryParser_parse query).op == "AND") = true := by
    rw [hop]
    rfl
  constructor
  · intro r hr
    unfold search at hr
    dsimp only at hr
    rw [mem_pySortBy] at hr
    rcases List.mem_flatMap.mp hr with ⟨entry, hentry, hbody⟩
    rw [if_pos hbeq] at hbody
    by_cases hall : (expandTerms mt (QueryParser_parse query).terms es).all
        (fun t => entryMatchTerm t entry.1 entry.2) = true
    · rw [if_pos hall] at hbody
      dsimp only at hbody
      rw [hrel] at hbody
      rw [if_pos hmr] at hbody
      rcases List.mem_map.mp hbody with ⟨orig, _, heq⟩
      constructor
      · rw [← heq]
      · rw [← heq]
    · rw [if_neg hall] at hbody
      simp at hbody
  · unfold search
    dsimp only
    refine congrArg _ (congrArg _ (funext fun entry => ?_))
    rw [if_pos hbeq]
    by_cases hall : (expandTerms mt (QueryParser_parse query).terms es).all
        (fun t => entryMatchTerm t entry.1 entry.2) = true
    · rw [if_pos hall]
      dsimp only
      rw [hrel]
      rw [if_pos hmr, if_pos (by norm_num : (0 : ℚ) ≤ 1)]
    · rw [if_neg hall]

/-- Index used by the C8 witness. -/
def idxC8 : List (String × List String) :=
  [("lung nodule", ["lung nodule"]), ("heart", ["heart"])]

/-- Witness for C8: a concrete AND query against a concrete index with a
threshold of one half. -/
theorem C8_witness :
    (∀ r ∈ search mtEmpty idxC8 "lung AND nodule" true (1/2),
      r.relevance_score = 1 ∧
      r.matched_query_terms =
        expandTerms mtEmpty (QueryParser_parse "lung AND nodule").terms true) ∧
    search mtEmpty idxC8 "lung AND nodule" true (1/2) =
      search mtEmpty idxC8 "lung AND nodule" true 0 :=
  C8_and_relevance mtEmpty idxC8 "lung AND nodule" true (1/2) (by decide) (by norm_num)

/-- C9: a whitespace-only query (when the empty string is a key of neither
lookup map) parses as SINGLE with the empty term, which is a substring of
every canonical key, so the search returns one result of relevance 1 for
every stored surface form of every indexed entry. -/
theorem C9_empty_query (mt : MedicalTerms) (index : List (String × List String))
    (query : String) (es : Bool)
    (hq : pyStripL query.data = [])
    (ha : alookup (abbreviationMap mt) "" = none)
    (hs : alookup (synonymMap mt) "" = none) :
    (search mt index query es 0).map
        (fun r => (r.keyword_text, r.normalized_form, r.relevance_score)) =
      index.flatMap (fun entry => entry.2.map (fun s => (s, entry.1, (1 : ℚ)))) := by
  have h1 : (findSepIdx ['a', 'n', 'd'] (pyStripL query.data)).isSome = false := by
    rw [hq]; rfl
  have h2 : (findSepIdx ['o', 'r'] (pyStripL query.data)).isSome = false := by
    rw [hq]; rfl
  have h3 : ¬ (splitWs (pyStripL query.data)).length > 1 := by
    rw [hq]; decide
  have hparse : QueryParser_parse query = { op := "SINGLE", terms := [""] } := by
    rw [parse_shape_single h1 h2 h3, hq]
    rfl
  have hnorm : normalize mt "" = "" := by
    unfold normalize
    dsimp only
    rw [show nls "" = "" from rfl, ha]
    simp [hs]
  have hforms : get_all_forms mt "" = [""] := by
    unfold get_all_forms
    dsimp only
    rw [hnorm]
    have hfind : mt.synonyms.find? (fun g => lowerStr g.1 == "") = none := by
      cases hf : mt.synonyms.find? (fun g => lowerStr g.1 == "") with
      | none => rfl
      | some g =>
        exfalso
        have hg1 : lowerStr g.1 = "" := by
          have := List.find?_some hf
          simpa using this
        have hg2 := List.mem_of_find?_eq_some hf
        have hkey := synonymMap_key_of_group mt.synonyms g hg2
        rw [hg1, show buildSynonymMap mt.synonyms = synonymMap mt from rfl, hs] at hkey
        simp at hkey
    rw [hfind]
    rfl
  have hexpd : expandTerms mt [""] es = [""] := by
    cases es <;> simp [expandTerms, hforms, insertIfAbsent]
  have hmatch : ∀ (nk : String) (forms : List String),
      ([""] : List String).find? (fun t => entryMatchTerm t nk forms) = some "" := by
    intro nk forms
    have hterm : entryMatchTerm "" nk forms = true := by
      unfold entryMatchTerm strIn
      rw [show ("" : String).data = ([] : List Char) from rfl, isSubstr_nil]
      rfl
    simp [List.find?, hterm]
  unfold search
  dsimp only
  rw [hparse]
  dsimp only
  rw [hexpd]
  rw [show (("SINGLE" : String) == "AND") = false from rfl]
  simp only [show (false = true) = False from by simp, if_false]
  simp only [hmatch]
  simp only [List.length_singleton, max_self, Nat.cast_one, div_one]
  simp only [show ((0 : ℚ) ≤ 1) = True from eq_true (by norm_num), if_true]
  rw [pySortBy_eq_self _ _ ?_]
  · rw [List.map_flatMap]
    refine congrArg _ (funext fun entry => ?_)
    rw [List.map_map]
    rfl
  · intro x hx y hy
    rcases List.mem_flatMap.mp hx with ⟨ex, _, hxm⟩
    rcases List.mem_flatMap.mp hy with ⟨ey, _, hym⟩
    rcases List.mem_map.mp hxm with ⟨ox, _, hox⟩
    rcases List.mem_map.mp hym with ⟨oy, _, hoy⟩
    have hxr : x.relevance_score = 1 := by rw [← hox]
    have hyr : y.relevance_score = 1 := by rw [← hoy]
    rw [hxr, hyr]
    exact decide_eq_true (le_refl (1 : ℚ))

/-- Index used by the C9 witness. -/
def idxC9 : List (String × List String) :=
  [("pulmonary", ["lung", "Pulmonary"]), ("nodule", ["nodule"])]

/-- Witness for C9: searching a whitespace-only query over a concrete
index returns one relevance-1 result per stored surface form. -/
theorem C9_witness :
    (search mtC9w idxC9 "   " true 0).map
        (fun r => (r.keyword_text, r.normalized_form, r.relevance_score)) =
      idxC9.flatMap (fun entry => entry.2.map (fun s => (s, entry.1, (1 : ℚ)))) :=
  C9_empty_query mtC9w idxC9 "   " true (by decide) (by decide) (by decide)

end Maps
